import Mathlib

namespace TrackMonitor

/-!
Verification of the track-monitor racing system: a shallow embedding of
the EV engine, race aggregator, race matcher and opportunity tracker
found in src/racing/aggregator.py, src/racing/tracker.py,
src/racing/sources/sportsbet.py and src/bot.py.  Machine floats are
modelled as rationals; Python dicts keyed by horse number are modelled
as association lists; the spreadsheet is modelled as a list of typed
rows.
-/

/-- Python truthiness of an optional numeric value (`not x` in the
source): `None` and `0` are falsy, every other number is truthy. -/
def truthy : Option ℚ → Bool
  | none => false
  | some v => v != 0

/-- config.RETENTION_FACTOR: q = 0.70, cash value per dollar of bonus. -/
def RETENTION_FACTOR : ℚ := 7/10

/-- config.BETFAIR_COMMISSION, the state-keyed commission table with its
default entry, as used via `BETFAIR_COMMISSION.get(state, default)`. -/
def BETFAIR_COMMISSION (state : String) : ℚ :=
  if state = "NSW" then 1/10
  else if state = "ACT" then 1/10
  else if state = "VIC" then 2/25
  else if state = "QLD" then 2/25
  else if state = "SA" then 2/25
  else if state = "WA" then 2/25
  else if state = "TAS" then 2/25
  else if state = "NT" then 2/25
  else 2/25

/-- RaceAggregator._calculate_ev_2nd3rd (src/racing/aggregator.py).
Guard clause first, then the promo EV with the lay-mode commission
adjustment; the `try` body cannot divide by zero once the guard has
passed, so the model is total. -/
def calculate_ev_2nd3rd (bookmaker_odds lay_win lay_place : Option ℚ)
    (lay_mode : String) (commission : ℚ) : Option ℚ :=
  if !truthy bookmaker_odds || !truthy lay_win || !truthy lay_place then
    none
  else
    let B := bookmaker_odds.getD 0
    let Lw := lay_win.getD 0
    let Lp := lay_place.getD 0
    let p1 := 1 / Lw
    let p_place := 1 / Lp
    let p2or3 := max (p_place - p1) 0
    let ev := p1 * B + p2or3 * RETENTION_FACTOR - 1
    let ev2 :=
      if lay_mode = "lay" then ev - (1 - p1) * commission * (B - 1) / Lw
      else if lay_mode = "half_lay" then
        ev - (1 - p1) * commission * (B - 1) / Lw / 2
      else ev
    some (ev2 * 100)

/-- RaceAggregator._calculate_ev_free_hit (src/racing/aggregator.py). -/
def calculate_ev_free_hit (bookmaker_odds lay_win : Option ℚ)
    (lay_mode : String) (commission : ℚ) : Option ℚ :=
  if !truthy bookmaker_odds || !truthy lay_win then
    none
  else
    let B := bookmaker_odds.getD 0
    let Lw := lay_win.getD 0
    let p_win := 1 / Lw
    let p_lose := 1 - p_win
    let ev := p_win * B + p_lose * RETENTION_FACTOR - 1
    let ev2 :=
      if lay_mode = "lay" then ev - p_lose * commission * (B - 1) / Lw
      else if lay_mode = "half_lay" then
        ev - p_lose * commission * (B - 1) / Lw / 2
      else ev
    some (ev2 * 100)

/-- RaceAggregator._calculate_retention_snr (src/racing/aggregator.py). -/
def calculate_retention_snr (bookmaker_odds lay_win : Option ℚ)
    (lay_mode : String) (commission : ℚ) : Option ℚ :=
  if !truthy bookmaker_odds || !truthy lay_win then
    none
  else
    let B := bookmaker_odds.getD 0
    let Lw := lay_win.getD 0
    let retention := (B - 1) / Lw
    let retention2 :=
      if lay_mode = "lay" then retention - (1 - 1 / Lw) * commission
      else if lay_mode = "half_lay" then
        retention - (1 - 1 / Lw) * commission / 2
      else retention
    some (retention2 * 100)

/-! ## Matcher (SportsbetSource.find_race, src/racing/sources/sportsbet.py) -/

/-- Does the first character list start the second one (prefix test)? -/
def startsSeg : List Char → List Char → Bool
  | [], _ => true
  | _ :: _, [] => false
  | a :: as, b :: bs => a = b && startsSeg as bs

/-- Python string containment `pat in s`: pat occurs as a contiguous
segment of s. -/
def containsSeg : List Char → List Char → Bool
  | pat, [] => pat.isEmpty
  | pat, c :: rest => startsSeg pat (c :: rest) || containsSeg pat rest

/-- Venue normalization `venue.lower().replace(' ', '')`: lower-case
every character and remove the spaces. -/
def normVenue (s : String) : List Char :=
  (s.toList.map Char.toLower).filter (fun c => c ≠ ' ')

/-- One race of a Sportsbet meeting as parsed by get_meetings; the start
time is an instant in seconds and may be absent. -/
structure SBRace where
  eventId : Nat
  raceNumber : Nat
  raceName : String
  startTime : Option ℤ
  deriving Repr, DecidableEq

/-- One Sportsbet meeting: a venue name and its races. -/
structure SBMeeting where
  venue : String
  races : List SBRace
  deriving Repr, DecidableEq

/-- The record find_race returns for a matched race. -/
structure SBMatch where
  eventId : Nat
  venue : String
  raceNumber : Nat
  raceName : String
  startTime : ℤ
  deriving Repr, DecidableEq

/-- The venue qualification test of find_race: bidirectional substring
containment of the normalized venues (the loop continues unless
`meeting_venue in search_venue or search_venue in meeting_venue`). -/
def venueOk (query : String) (m : SBMeeting) : Bool :=
  containsSeg (normVenue m.venue) (normVenue query) ||
    containsSeg (normVenue query) (normVenue m.venue)

/-- The inner loop of find_race over the races of one qualifying
meeting: fold carrying (best_diff, best_match), starting at
best_diff = 300, updating whenever a timed race has
|start - query| <= best_diff. -/
def findBestRace (mVenue : String) (t0 : ℤ) :
    List SBRace → ℤ → Option SBMatch → Option SBMatch
  | [], _, best => best
  | r :: rs, bestDiff, best =>
    match r.startTime with
    | none => findBestRace mVenue t0 rs bestDiff best
    | some t =>
      if |t - t0| ≤ bestDiff then
        findBestRace mVenue t0 rs (|t - t0|)
          (some ⟨r.eventId, mVenue, r.raceNumber, r.raceName, t⟩)
      else findBestRace mVenue t0 rs bestDiff best

/-- SportsbetSource.find_race: walk the meetings; for the first
qualifying meeting whose best time match is within tolerance, return
it; skip meetings with no qualifying race.  The race-number argument is
part of the source signature but unused by the matching logic. -/
def find_race (venue : String) (raceNumber : Nat) (startTime : ℤ)
    (meetings : List SBMeeting) : Option SBMatch :=
  match meetings with
  | [] => none
  | m :: ms =>
    if venueOk venue m then
      match findBestRace m.venue startTime m.races 300 none with
      | some bm => some bm
      | none => find_race venue raceNumber startTime ms
    else find_race venue raceNumber startTime ms

/-! ## Aggregator (RaceAggregator, src/racing/aggregator.py) -/

/-- One reference-exchange (Betfair) runner: name, status (active or
REMOVED), win-market lay price and size, place-market lay price. -/
structure BFRunner where
  horseName : String
  status : String
  layWin : Option ℚ
  layWinSize : Option ℚ
  layPlace : Option ℚ
  deriving Repr, DecidableEq

/-- One bookmaker runner quote: win odds (nullable) and scratched flag. -/
structure BKRunner where
  winOdds : Option ℚ
  scratched : Bool
  deriving Repr, DecidableEq

/-- Dict lookup (`d.get(key)`), modelling dicts as association lists. -/
def alookup {κ α : Type} [DecidableEq κ] : List (κ × α) → κ → Option α
  | [], _ => none
  | (k, v) :: rest, n => if k = n then some v else alookup rest n

/-- Dict assignment `d[key] = value`: overwrite in place, or append a
new entry for a fresh key. -/
def aset {κ α : Type} [DecidableEq κ] : List (κ × α) → κ → α → List (κ × α)
  | [], k, v => [(k, v)]
  | (k', v') :: rest, k, v =>
    if k' = k then (k, v) :: rest else (k', v') :: aset rest k v

/-- Bookmaker odds for one horse:
`runner.get('win_odds') if not runner.get('scratched') else None`,
where a missing runner contributes a missing quote. -/
def bkOdds (runners : List (Nat × BKRunner)) (horseNum : Nat) : Option ℚ :=
  match alookup runners horseNum with
  | none => none
  | some r => if r.scratched then none else r.winOdds

/-- The odds/EV pair stored per bookmaker in a composite runner. -/
structure OddsEv where
  odds : Option ℚ
  ev : Option ℚ
  deriving Repr, DecidableEq

/-- The promo dispatch of _combine_runner_data, applied bookmaker by
bookmaker: free_hit uses the free-hit EV, bonus uses SNR retention
always at full lay, anything else defaults to the 2nd/3rd promo EV. -/
def evFor (promo lay_mode : String) (commission : ℚ)
    (odds layWin layPlace : Option ℚ) : Option ℚ :=
  if promo = "free_hit" then calculate_ev_free_hit odds layWin lay_mode commission
  else if promo = "bonus" then calculate_retention_snr odds layWin "lay" commission
  else calculate_ev_2nd3rd odds layWin layPlace lay_mode commission

/-- One merged runner of a race snapshot. -/
structure CompositeRunner where
  horseNumber : Nat
  horseName : String
  layWin : Option ℚ
  layWinSize : Option ℚ
  layPlace : Option ℚ
  sportsbet : OddsEv
  amused : OddsEv
  pointsbet : OddsEv
  betr : OddsEv
  boombet : OddsEv
  palmerbet : OddsEv
  tab : OddsEv
  playup : OddsEv
  deriving Repr, DecidableEq

/-- Build the composite runner for one non-removed Betfair runner. -/
def mkComposite (promo lay_mode : String) (commission : ℚ)
    (sb am pb bt bb pm tb pu : List (Nat × BKRunner))
    (p : Nat × BFRunner) : CompositeRunner :=
  let mkOE : List (Nat × BKRunner) → OddsEv := fun data =>
    let odds := bkOdds data p.1
    ⟨odds, evFor promo lay_mode commission odds p.2.layWin p.2.layPlace⟩
  { horseNumber := p.1
    horseName := p.2.horseName
    layWin := p.2.layWin
    layWinSize := p.2.layWinSize
    layPlace := p.2.layPlace
    sportsbet := mkOE sb
    amused := mkOE am
    pointsbet := mkOE pb
    betr := mkOE bt
    boombet := mkOE bb
    palmerbet := mkOE pm
    tab := mkOE tb
    playup := mkOE pu }

/-- Sorted insertion by horse number, used to model
`runners.sort(key=lambda x: x['horse_number'] or 0)`. -/
def insertRunner (x : CompositeRunner) :
    List CompositeRunner → List CompositeRunner
  | [] => [x]
  | y :: ys =>
    if x.horseNumber ≤ y.horseNumber then x :: y :: ys
    else y :: insertRunner x ys

/-- Sort the composite runners ascending by horse number. -/
def sortRunners : List CompositeRunner → List CompositeRunner
  | [] => []
  | x :: xs => insertRunner x (sortRunners xs)

/-- RaceAggregator._combine_runner_data: walk the Betfair runners, skip
the ones whose status is REMOVED, join the bookmaker quotes and compute
EV per bookmaker, then sort ascending by horse number. -/
def combine_runner_data (betfair_runners : List (Nat × BFRunner))
    (sb am pb bt bb pm tb pu : List (Nat × BKRunner))
    (promo lay_mode : String) (commission : ℚ) : List CompositeRunner :=
  sortRunners
    ((betfair_runners.filter (fun p => p.2.status ≠ "REMOVED")).map
      (mkComposite promo lay_mode commission sb am pb bt bb pm tb pu))

/-- One candidate race of the get_next_race loop together with the data
its fan-out round produced.  Each branch of the fan-out is fetched
exactly once per candidate, so the fetched Betfair, TAB-state and
bookmaker results are attached to the candidate; an empty runner list
models an empty branch result. -/
structure Candidate where
  venue : String
  countryCode : String
  raceNumber : Nat
  raceName : String
  startTime : ℤ
  secondsUntilStart : ℤ
  winMarketId : Option Nat
  placeMarketId : Option Nat
  betfairRunners : List (Nat × BFRunner)
  sportsbet : List (Nat × BKRunner)
  amused : List (Nat × BKRunner)
  pointsbet : List (Nat × BKRunner)
  betr : List (Nat × BKRunner)
  boombet : List (Nat × BKRunner)
  palmerbet : List (Nat × BKRunner)
  tabState : String
  tab : List (Nat × BKRunner)
  playup : List (Nat × BKRunner)
  deriving Repr, DecidableEq

/-- The coverage test of get_next_race: at least one of the eight
bookmaker branches returned a non-empty runner map. -/
def hasBookieOdds (c : Candidate) : Bool :=
  !c.sportsbet.isEmpty || !c.amused.isEmpty || !c.pointsbet.isEmpty ||
    !c.betr.isEmpty || !c.boombet.isEmpty || !c.palmerbet.isEmpty ||
    !c.tab.isEmpty || !c.playup.isEmpty

/-- The composite race snapshot get_next_race returns. -/
structure RaceSnapshot where
  venue : String
  countryCode : String
  state : String
  raceNumber : Nat
  raceName : String
  startTime : ℤ
  secondsUntilStart : ℤ
  winMarketId : Option Nat
  placeMarketId : Option Nat
  international : Bool
  promo : String
  layMode : String
  commission : ℚ
  runners : List CompositeRunner
  deriving Repr, DecidableEq

/-- Build the snapshot returned for a covered candidate: state from the
TAB branch, commission from the state table, runners from
_combine_runner_data. -/
def mkSnapshot (international : Bool) (promo lay_mode : String)
    (c : Candidate) : RaceSnapshot :=
  let state := c.tabState
  let commission := BETFAIR_COMMISSION state
  { venue := c.venue
    countryCode := c.countryCode
    state := state
    raceNumber := c.raceNumber
    raceName := c.raceName
    startTime := c.startTime
    secondsUntilStart := c.secondsUntilStart
    winMarketId := c.winMarketId
    placeMarketId := c.placeMarketId
    international := international
    promo := promo
    layMode := lay_mode
    commission := commission
    runners := combine_runner_data c.betfairRunners c.sportsbet c.amused
      c.pointsbet c.betr c.boombet c.palmerbet c.tab c.playup
      promo lay_mode commission }

/-- The candidate loop of RaceAggregator.get_next_race over the already
fetched upcoming-race list: return the snapshot of the first candidate
with bookmaker coverage, skip a candidate without coverage for good,
and return none when the list is exhausted. -/
def get_next_race (international : Bool) (promo lay_mode : String) :
    List Candidate → Option RaceSnapshot
  | [] => none
  | c :: cs =>
    if hasBookieOdds c then some (mkSnapshot international promo lay_mode c)
    else get_next_race international promo lay_mode cs

/-- A candidate with no bookmaker coverage on any branch. -/
def demoCandidateNoOdds (venue : String) : Candidate :=
  { venue := venue
    countryCode := "AU"
    raceNumber := 1
    raceName := "Demo"
    startTime := 0
    secondsUntilStart := 60
    winMarketId := some 1
    placeMarketId := some 2
    betfairRunners := [(1, ⟨"Horse", "ACTIVE", some 3, some 100, some 2⟩)]
    sportsbet := []
    amused := []
    pointsbet := []
    betr := []
    boombet := []
    palmerbet := []
    tabState := ""
    tab := []
    playup := [] }

/-- A candidate whose Sportsbet branch produced a quote. -/
def demoCandidateWithOdds : Candidate :=
  { demoCandidateNoOdds "B" with
    sportsbet := [(1, ⟨some (7/2), false⟩)] }

/-! ## Opportunity tracker (EVTracker, src/racing/tracker.py; settlement
paths in src/bot.py) -/

/-- Round a rational to the nearest integer, ties to even: the
behaviour of the Python builtin round on exact values. -/
def roundHalfEven (q : ℚ) : ℤ :=
  if q - ⌊q⌋ < 1/2 then ⌊q⌋
  else if (1:ℚ)/2 < q - ⌊q⌋ then ⌊q⌋ + 1
  else if Even ⌊q⌋ then ⌊q⌋ else ⌊q⌋ + 1

/-- Python round(x, 2). -/
def round2 (q : ℚ) : ℚ := (roundHalfEven (q * 100) : ℚ) / 100

/-- Python round(x, 1). -/
def round1 (q : ℚ) : ℚ := (roundHalfEven (q * 10) : ℚ) / 10

/-- One persisted sheet row, columns Date through Cum Full Lay; an
empty cell is none. -/
structure Row where
  date : String
  time : String
  venue : String
  race : Nat
  horse : String
  bookie : String
  back : Option ℚ
  lay : Option ℚ
  evNoLay : Option ℚ
  evHalfLay : Option ℚ
  evFullLay : Option ℚ
  result : Option String
  plNoLay : Option ℚ
  plHalfLay : Option ℚ
  plFullLay : Option ℚ
  cumNoLay : Option ℚ
  cumHalfLay : Option ℚ
  cumFullLay : Option ℚ
  deriving Repr, DecidableEq

/-- The result label written by update_results for a position. -/
def resultLabel (position : ℤ) : String :=
  if position = 1 then "1st"
  else if position = 2 then "2nd"
  else if position = 3 then "3rd"
  else "4th+"

/-- The P/L triple (no lay, half lay, full lay) computed by
update_results from a position, the stored back/lay prices and the
commission, split by promo family exactly as in the source. -/
def plValues (is_free_hit : Bool) (position : ℤ)
    (back_odds lay_odds commission : ℚ) : ℚ × ℚ × ℚ :=
  let lay_rt := if lay_odds > 0 then back_odds / lay_odds else 0
  if is_free_hit then
    if position = 1 then
      (back_odds - 1, (back_odds - 1) / 2 + (lay_rt - 1) / 2, lay_rt - 1)
    else
      let lay_profit := lay_rt * (1 - commission)
      (RETENTION_FACTOR - 1,
        (RETENTION_FACTOR - 1) / 2 + (lay_profit - 1) / 2,
        lay_profit - 1 + RETENTION_FACTOR)
  else
    if position = 1 then
      (back_odds - 1, (back_odds - 1) / 2 + (lay_rt - 1) / 2, lay_rt - 1)
    else if position = 2 ∨ position = 3 then
      let lay_profit := lay_rt * (1 - commission)
      (RETENTION_FACTOR - 1,
        (RETENTION_FACTOR - 1) / 2 + (lay_profit - 1) / 2,
        lay_profit - 1 + RETENTION_FACTOR)
    else
      let lay_profit := lay_rt * (1 - commission)
      (-1, -(1/2) + (lay_profit - 1) / 2, lay_profit - 1)

/-- Settle one found row: write the result label and the three P/L
cells rounded to two decimals, reading back/lay from the row (an empty
cell reads as 0) and using the fixed local commission 0.08 of
update_results. -/
def settleRow (is_free_hit : Bool) (position : ℤ) (r : Row) : Row :=
  let back_odds := r.back.getD 0
  let lay_odds := r.lay.getD 0
  let commission : ℚ := 2/25
  let t := plValues is_free_hit position back_odds lay_odds commission
  { r with result := some (resultLabel position)
           plNoLay := some (round2 t.1)
           plHalfLay := some (round2 t.2.1)
           plFullLay := some (round2 t.2.2) }

/-- The row-finding loop of update_results: settle the first row whose
date, venue and race number match (the match does not inspect the
result column), or report that none matched. -/
def findSettle (is_free_hit : Bool) (position : ℤ) (venue : String)
    (race_num : Nat) (date_str : String) : List Row → Option (List Row)
  | [] => none
  | r :: rs =>
    if r.date = date_str ∧ r.venue = venue ∧ r.race = race_num then
      some (settleRow is_free_hit position r :: rs)
    else
      match findSettle is_free_hit position venue race_num date_str rs with
      | some rs2 => some (r :: rs2)
      | none => none

/-- The cumulative rescan of _update_cumulative_totals: walk every row
top to bottom carrying three running sums, and rewrite the three
cumulative cells (rounded to two decimals) of every row whose
P/L-no-lay cell is present; other rows are untouched. -/
def cumGo (cn ch cf : ℚ) : List Row → List Row
  | [] => []
  | r :: rs =>
    if r.plNoLay.isSome then
      let cn2 := cn + r.plNoLay.getD 0
      let ch2 := ch + r.plHalfLay.getD 0
      let cf2 := cf + r.plFullLay.getD 0
      { r with cumNoLay := some (round2 cn2)
               cumHalfLay := some (round2 ch2)
               cumFullLay := some (round2 cf2) } :: cumGo cn2 ch2 cf2 rs
    else r :: cumGo cn ch cf rs

/-- EVTracker._update_cumulative_totals on the data rows of a sheet. -/
def update_cumulative_totals (sheet : List Row) : List Row :=
  cumGo 0 0 0 sheet

/-- EVTracker.update_results: find the first matching row, settle it,
recompute the cumulative totals of the whole sheet and return true;
return the sheet unchanged with false when no row matches.  Whether the
promo is free-hit is decided by a FreeHit substring test on the sheet
name. -/
def update_results (sheet_name venue : String) (race_num : Nat)
    (date_str : String) (position : ℤ) (sheet : List Row) :
    List Row × Bool :=
  let is_free_hit := containsSeg "FreeHit".toList sheet_name.toList
  match findSettle is_free_hit position venue race_num date_str sheet with
  | some sheet2 => (update_cumulative_totals sheet2, true)
  | none => (sheet, false)

/-- The result-code to position mapping of
SportsbetSource.get_race_results: W wins, P places, V is void, anything
else loses. -/
def positionOfResultCode (code : Char) : ℤ :=
  if code = 'W' then 1 else if code = 'P' then 2
  else if code = 'V' then -1 else 0

/-- The position choices offered by the manual /update_result command
of the bot: void is not among them. -/
def manualPositionChoices : List ℤ := [1, 2, 3, 0]

/-- The per-pending-race body of the results_loop in src/bot.py: look
up the tracked horse in the fetched results; when its position is -1
(void or scratched) skip the race without touching the sheet, otherwise
call update_results. -/
def process_pending_result (sheet : List Row) (sheetName venue : String)
    (raceNum : Nat) (dateStr : String) (horseNum : Nat)
    (results : List (Nat × ℤ)) : List Row × Bool :=
  match alookup results horseNum with
  | none => (sheet, false)
  | some position =>
    if position = -1 then (sheet, false)
    else update_results sheetName venue raceNum dateStr position sheet

/-- EVTracker._calc_ev_2nd3rd: same 2nd/3rd formula as the aggregator,
with a plain (non-optional) back price. -/
def calc_ev_2nd3rd (back : ℚ) (lay_win lay_place : Option ℚ)
    (lay_mode : String) (commission : ℚ) : Option ℚ :=
  if back == 0 || !truthy lay_win || !truthy lay_place then none
  else
    let Lw := lay_win.getD 0
    let Lp := lay_place.getD 0
    let p1 := 1 / Lw
    let p_place := 1 / Lp
    let p2or3 := max (p_place - p1) 0
    let ev := p1 * back + p2or3 * RETENTION_FACTOR - 1
    let ev2 :=
      if lay_mode = "lay" then ev - (1 - p1) * commission * (back - 1) / Lw
      else if lay_mode = "half_lay" then
        ev - (1 - p1) * commission * (back - 1) / Lw / 2
      else ev
    some (ev2 * 100)

/-- EVTracker._calc_ev_free_hit: same free-hit formula as the
aggregator, with a plain back price. -/
def calc_ev_free_hit (back : ℚ) (lay_win : Option ℚ)
    (lay_mode : String) (commission : ℚ) : Option ℚ :=
  if back == 0 || !truthy lay_win then none
  else
    let Lw := lay_win.getD 0
    let p_win := 1 / Lw
    let p_lose := 1 - p_win
    let ev := p_win * back + p_lose * RETENTION_FACTOR - 1
    let ev2 :=
      if lay_mode = "lay" then ev - p_lose * commission * (back - 1) / Lw
      else if lay_mode = "half_lay" then
        ev - p_lose * commission * (back - 1) / Lw / 2
      else ev
    some (ev2 * 100)

/-- The BOOKIES constant of the tracker, paired with each runner's
stored quote, in the iteration order of _find_best_ev. -/
def bookieQuotes (r : CompositeRunner) : List (String × OddsEv) :=
  [("amused", r.amused), ("betr", r.betr), ("boombet", r.boombet),
   ("palmerbet", r.palmerbet), ("playup", r.playup),
   ("pointsbet", r.pointsbet), ("sportsbet", r.sportsbet),
   ("tab", r.tab)]

/-- The candidate pick of _find_best_ev. -/
structure BestPick where
  horseNumber : Nat
  horseName : String
  bookie : String
  backOdds : ℚ
  layWin : Option ℚ
  layPlace : Option ℚ
  deriving Repr, DecidableEq

/-- Inner loop of _find_best_ev over the bookmakers of one runner,
carrying (best, best_ev); a quote is eligible when both its EV and its
odds are present and the EV strictly beats the best so far. -/
def scanBookies (r : CompositeRunner) :
    List (String × OddsEv) → Option BestPick × ℚ → Option BestPick × ℚ
  | [], st => st
  | (name, q) :: rest, (best, bestEv) =>
    match q.ev, q.odds with
    | some ev, some odds =>
      if ev > bestEv then
        scanBookies r rest
          (some ⟨r.horseNumber, r.horseName, name, odds, r.layWin,
            r.layPlace⟩, ev)
      else scanBookies r rest (best, bestEv)
    | _, _ => scanBookies r rest (best, bestEv)

/-- Outer loop of _find_best_ev over the runners. -/
def scanRunners : List CompositeRunner → Option BestPick × ℚ →
    Option BestPick × ℚ
  | [], st => st
  | r :: rs, st => scanRunners rs (scanBookies r (bookieQuotes r) st)

/-- EVTracker._find_best_ev: select the best (runner, bookmaker) pair
starting from best_ev = -999, then compute the EV of the pick for all
three lay modes with the default commission 0.08. -/
def find_best_ev (runners : List CompositeRunner) (promo : String) :
    Option (BestPick × (Option ℚ × Option ℚ × Option ℚ)) :=
  match (scanRunners runners (none, -999)).1 with
  | none => none
  | some best =>
    if promo = "free_hit" then
      some (best,
        (calc_ev_free_hit best.backOdds best.layWin "no_lay" (2/25),
         calc_ev_free_hit best.backOdds best.layWin "half_lay" (2/25),
         calc_ev_free_hit best.backOdds best.layWin "lay" (2/25)))
    else
      some (best,
        (calc_ev_2nd3rd best.backOdds best.layWin best.layPlace "no_lay" (2/25),
         calc_ev_2nd3rd best.backOdds best.layWin best.layPlace "half_lay" (2/25),
         calc_ev_2nd3rd best.backOdds best.layWin best.layPlace "lay" (2/25)))

/-- A rounded EV cell of a logged row:
`round(ev, 1) if ev else ""`. -/
def evCell (v : Option ℚ) : Option ℚ :=
  match v with
  | none => none
  | some x => if x = 0 then none else some (round1 x)

/-- Python str.title restricted to its effect on ASCII text: a letter
after a non-letter is upper-cased, any other letter lower-cased. -/
def titleGo : Bool → List Char → List Char
  | _, [] => []
  | prevAlpha, c :: cs =>
    (if prevAlpha then c.toLower else c.toUpper) :: titleGo c.isAlpha cs

/-- Python str.title on a string. -/
def pyTitle (s : String) : String := ⟨titleGo false s.toList⟩

/-- The race data log_opportunity consumes: identification fields, the
minute-resolution start-time key used in the race key, the
Sydney-local date and time strings, the promo and the runners. -/
structure RaceData where
  venue : String
  raceNumber : Nat
  startKey : String
  dateStr : String
  timeStr : String
  promo : String
  runners : List CompositeRunner
  deriving Repr, DecidableEq

/-- EVTracker._get_race_key: venue, race number and start time to the
minute. -/
def raceKeyOf (race : RaceData) : String :=
  race.venue ++ "_R" ++ toString race.raceNumber ++ "_" ++ race.startKey

/-- The timing checkpoints of the tracker. -/
inductive Timing where
  | oneMin
  | thirtyS
  deriving Repr, DecidableEq

/-- The timing suffix used in sheet names. -/
def timingStr : Timing → String
  | .oneMin => "1min"
  | .thirtyS => "30s"

/-- The sheet a (promo, timing) pair logs to. -/
def sheetNameOf (race : RaceData) (timing : Timing) : String :=
  if race.promo = "free_hit" then "FreeHit-" ++ timingStr timing
  else "2/3-" ++ timingStr timing

/-- Read the checkpoint flag of a session entry. -/
def flagOf : Timing → Bool × Bool → Bool
  | .oneMin, f => f.1
  | .thirtyS, f => f.2

/-- Set the checkpoint flag of a session entry. -/
def setFlag : Timing → Bool × Bool → Bool × Bool
  | .oneMin, f => (true, f.2)
  | .thirtyS, f => (f.1, true)

/-- The tracker state: the in-memory session map from race key to the
two checkpoint flags, and the persisted sheets keyed by name. -/
structure TrackerState where
  tracked : List (String × (Bool × Bool))
  sheets : List (String × List Row)
  deriving Repr, DecidableEq

/-- The appended row of log_opportunity. -/
def mkLogRow (race : RaceData) (best : BestPick)
    (evs : Option ℚ × Option ℚ × Option ℚ) : Row :=
  { date := race.dateStr
    time := race.timeStr
    venue := race.venue
    race := race.raceNumber
    horse := "#" ++ toString best.horseNumber ++ " " ++ best.horseName
    bookie := pyTitle best.bookie
    back := some best.backOdds
    lay := best.layWin
    evNoLay := evCell evs.1
    evHalfLay := evCell evs.2.1
    evFullLay := evCell evs.2.2
    result := none
    plNoLay := none
    plHalfLay := none
    plFullLay := none
    cumNoLay := none
    cumHalfLay := none
    cumFullLay := none }

/-- EVTracker.log_opportunity: create the session entry when the race
key is new; return untouched when the checkpoint is already logged;
otherwise pick the best opportunity, and when one exists and the sheet
exists, append one row and mark the checkpoint logged.  A missing best
pick, or a failing sheet append (modelled as a missing sheet), leaves
the checkpoint unmarked. -/
def log_opportunity (st : TrackerState) (race : RaceData)
    (timing : Timing) : TrackerState :=
  let key := raceKeyOf race
  let sheetName := sheetNameOf race timing
  let tracked1 :=
    match alookup st.tracked key with
    | none => aset st.tracked key (false, false)
    | some _ => st.tracked
  let flags := (alookup tracked1 key).getD (false, false)
  if flagOf timing flags then { st with tracked := tracked1 }
  else
    match find_best_ev race.runners race.promo with
    | none => { st with tracked := tracked1 }
    | some (best, evs) =>
      match alookup st.sheets sheetName with
      | none => { st with tracked := tracked1 }
      | some rows =>
        { tracked := aset tracked1 key (setFlag timing flags)
          sheets := aset st.sheets sheetName (rows ++ [mkLogRow race best evs]) }

/-- A matching row that is already settled. -/
def demoSettledRow : Row :=
  { date := "2025-01-01", time := "12:00", venue := "Flemington", race := 1
    horse := "#1 Demo", bookie := "Sportsbet", back := some 3, lay := some (5/2)
    evNoLay := some 5, evHalfLay := some 4, evFullLay := some 3
    result := some "1st", plNoLay := some 2, plHalfLay := some (11/10)
    plFullLay := some (1/5), cumNoLay := some 2, cumHalfLay := some (11/10)
    cumFullLay := some (1/5) }

/-- An unsettled matching row for a New South Wales venue. -/
def demoNSWRow : Row :=
  { date := "2025-01-01", time := "12:00", venue := "Randwick", race := 1
    horse := "#1 Demo", bookie := "Sportsbet", back := some 3, lay := some (5/2)
    evNoLay := some 5, evHalfLay := some 4, evFullLay := some 3
    result := none, plNoLay := none, plHalfLay := none, plFullLay := none
    cumNoLay := none, cumHalfLay := none, cumFullLay := none }

/-- Sum of the no-lay P/L over the settled rows (those with a P/L
no-lay cell) of a list. -/
def sumPlNoLay : List Row → ℚ
  | [] => 0
  | r :: rs => (if r.plNoLay.isSome then r.plNoLay.getD 0 else 0) +
      sumPlNoLay rs

/-- Sum of the half-lay P/L over the settled rows of a list. -/
def sumPlHalf : List Row → ℚ
  | [] => 0
  | r :: rs => (if r.plNoLay.isSome then r.plHalfLay.getD 0 else 0) +
      sumPlHalf rs

/-- Sum of the full-lay P/L over the settled rows of a list. -/
def sumPlFull : List Row → ℚ
  | [] => 0
  | r :: rs => (if r.plNoLay.isSome then r.plFullLay.getD 0 else 0) +
      sumPlFull rs

/-- The P/L cells of a row hold two-decimal values, as every cell the
tracker writes does (update_results rounds to two decimals). -/
def pl100 (r : Row) : Prop :=
  (∀ q : ℚ, r.plNoLay = some q → ∃ z : ℤ, q = z / 100) ∧
  (∀ q : ℚ, r.plHalfLay = some q → ∃ z : ℤ, q = z / 100) ∧
  (∀ q : ℚ, r.plFullLay = some q → ∃ z : ℤ, q = z / 100)

/-- A runner whose Sportsbet branch quotes odds with a computed EV. -/
def demoRunner : CompositeRunner :=
  { horseNumber := 1
    horseName := "Demo"
    layWin := some 2
    layWinSize := some 100
    layPlace := some (3/2)
    sportsbet := ⟨some 3, some 12⟩
    amused := ⟨none, none⟩
    pointsbet := ⟨none, none⟩
    betr := ⟨none, none⟩
    boombet := ⟨none, none⟩
    palmerbet := ⟨none, none⟩
    tab := ⟨none, none⟩
    playup := ⟨none, none⟩ }

/-- A fresh tracker state with the four empty sheets. -/
def demoTrackerState : TrackerState :=
  { tracked := []
    sheets := [("2/3-1min", []), ("2/3-30s", []),
      ("FreeHit-1min", []), ("FreeHit-30s", [])] }

/-- A race snapshot payload for the tracker demo. -/
def demoRaceData : RaceData :=
  { venue := "Flemington"
    raceNumber := 1
    startKey := "202501011200"
    dateStr := "2025-01-01"
    timeStr := "12:00"
    promo := "2/3"
    runners := [demoRunner] }

/-! ## Theorems -/

/-- C1: for every bookmaker odds B > 0, lay-win price Lw > 0 and
lay-place price Lp > 0, the 2nd/3rd-promo EV at hedge mode no_lay
equals (B/Lw + max(1/Lp - 1/Lw, 0) * 0.70 - 1) * 100, for every
commission rate (no commission term). -/
theorem ev_2nd3rd_no_lay_formula (B Lw Lp c : ℚ)
    (hB : 0 < B) (hLw : 0 < Lw) (hLp : 0 < Lp) :
    calculate_ev_2nd3rd (some B) (some Lw) (some Lp) "no_lay" c
      = some ((B / Lw + max (1 / Lp - 1 / Lw) 0 * (7/10) - 1) * 100) := by
  have hguard :
      (!truthy (some B) || !truthy (some Lw) || !truthy (some Lp)) = false := by
    simp [truthy, hB.ne', hLw.ne', hLp.ne']
  rw [calculate_ev_2nd3rd, hguard]
  simp only [Bool.false_eq_true, if_false, Option.getD_some]
  rw [if_neg (by decide), if_neg (by decide), Option.some_inj,
    RETENTION_FACTOR]
  ring_nf

/-- Witness for C1 at B = 3, Lw = 2, Lp = 3/2, c = 0.08. -/
theorem ev_2nd3rd_no_lay_formula_witness :
    calculate_ev_2nd3rd (some 3) (some 2) (some (3/2)) "no_lay" (2/25)
      = some (185/3) :=
  (ev_2nd3rd_no_lay_formula 3 2 (3/2) (2/25) (by norm_num) (by norm_num)
    (by norm_num)).trans (by norm_num)

/-- C5: each of the three EV/retention functions is total (returns a
value, never an exception) and returns none exactly when a required
price is missing (none) or zero. -/
theorem ev_functions_none_iff_missing_price
    (B Lw Lp : Option ℚ) (mode : String) (c : ℚ) :
    (calculate_ev_2nd3rd B Lw Lp mode c = none ↔
      (B = none ∨ B = some 0 ∨ Lw = none ∨ Lw = some 0 ∨
        Lp = none ∨ Lp = some 0)) ∧
    (calculate_ev_free_hit B Lw mode c = none ↔
      (B = none ∨ B = some 0 ∨ Lw = none ∨ Lw = some 0)) ∧
    (calculate_retention_snr B Lw mode c = none ↔
      (B = none ∨ B = some 0 ∨ Lw = none ∨ Lw = some 0)) := by
  have hguard2 : ∀ (a b : Option ℚ), (!truthy a || !truthy b) = true ↔
      (a = none ∨ a = some 0 ∨ b = none ∨ b = some 0) := by
    intro a b
    rcases a with _ | x <;> rcases b with _ | y <;> simp [truthy]
  have hguard3 : ∀ (a b d : Option ℚ),
      (!truthy a || !truthy b || !truthy d) = true ↔
      (a = none ∨ a = some 0 ∨ b = none ∨ b = some 0 ∨
        d = none ∨ d = some 0) := by
    intro a b d
    rcases a with _ | x <;> rcases b with _ | y <;> rcases d with _ | z <;>
      (simp [truthy]; try tauto)
  refine ⟨?_, ?_, ?_⟩
  · rw [calculate_ev_2nd3rd, ← hguard3 B Lw Lp]
    cases h : (!truthy B || !truthy Lw || !truthy Lp) <;> simp [h]
  · rw [calculate_ev_free_hit, ← hguard2 B Lw]
    cases h : (!truthy B || !truthy Lw) <;> simp [h]
  · rw [calculate_retention_snr, ← hguard2 B Lw]
    cases h : (!truthy B || !truthy Lw) <;> simp [h]

/-- Witness for C5: a missing bookmaker price yields none in all three
functions, and fully present nonzero prices yield a value. -/
theorem ev_functions_none_iff_missing_price_witness :
    calculate_ev_2nd3rd none (some 2) (some (3/2)) "lay" (2/25) = none ∧
    calculate_ev_free_hit (some 3) (some 0) "lay" (2/25) = none ∧
    calculate_retention_snr (some 3) (some 2) "lay" (2/25) ≠ none := by
  refine ⟨?_, ?_, ?_⟩
  · exact (ev_functions_none_iff_missing_price none (some 2) (some (3/2))
      "lay" (2/25)).1.mpr (Or.inl rfl)
  · exact (ev_functions_none_iff_missing_price (some 3) (some 0)
      (some 1) "lay" (2/25)).2.1.mpr (Or.inr (Or.inr (Or.inr rfl)))
  · intro hcon
    rcases (ev_functions_none_iff_missing_price (some 3) (some 2)
        (some 1) "lay" (2/25)).2.2.mp hcon with h | h | h | h <;>
      simp at h

theorem findBestRace_some (mv : String) (t0 : ℤ) :
    ∀ (races : List SBRace) (bd : ℤ) (acc : Option SBMatch) (mt : SBMatch),
    findBestRace mv t0 races bd acc = some mt →
    (acc = some mt ∧
      ∀ r ∈ races, ∀ t : ℤ, r.startTime = some t → bd < |t - t0|) ∨
    (∃ r ∈ races, ∃ t : ℤ, r.startTime = some t ∧
      mt = ⟨r.eventId, mv, r.raceNumber, r.raceName, t⟩ ∧ |t - t0| ≤ bd ∧
      ∀ r' ∈ races, ∀ t' : ℤ, r'.startTime = some t' →
        |t - t0| ≤ |t' - t0|) := by
  intro races
  induction races with
  | nil =>
    intro bd acc mt h
    simp only [findBestRace] at h
    refine Or.inl ⟨h, ?_⟩
    intro r hr
    exact absurd hr (List.not_mem_nil r)
  | cons r rs ih =>
    intro bd acc mt h
    cases hst : r.startTime with
    | none =>
      simp only [findBestRace, hst] at h
      rcases ih bd acc mt h with ⟨ha, hall⟩ | ⟨r₂, hr₂, t₂, ht₂, hmt, hle, hmin⟩
      · refine Or.inl ⟨ha, ?_⟩
        intro r' hr' t' ht'
        rcases List.mem_cons.mp hr' with rfl | hr'
        · rw [hst] at ht'; exact absurd ht' (by simp)
        · exact hall r' hr' t' ht'
      · refine Or.inr ⟨r₂, List.mem_cons_of_mem _ hr₂, t₂, ht₂, hmt, hle, ?_⟩
        intro r' hr' t' ht'
        rcases List.mem_cons.mp hr' with rfl | hr'
        · rw [hst] at ht'; exact absurd ht' (by simp)
        · exact hmin r' hr' t' ht'
    | some t =>
      simp only [findBestRace, hst] at h
      by_cases hd : |t - t0| ≤ bd
      · rw [if_pos hd] at h
        rcases ih _ _ mt h with ⟨ha, hall⟩ | ⟨r₂, hr₂, t₂, ht₂, hmt, hle, hmin⟩
        · refine Or.inr ⟨r, List.mem_cons_self r rs, t, hst,
            (Option.some_inj.mp ha).symm, hd, ?_⟩
          intro r' hr' t' ht'
          rcases List.mem_cons.mp hr' with rfl | hr'
          · rw [hst] at ht'
            rw [Option.some_inj.mp ht']
          · exact le_of_lt (hall r' hr' t' ht')
        · refine Or.inr ⟨r₂, List.mem_cons_of_mem _ hr₂, t₂, ht₂, hmt,
            le_trans hle hd, ?_⟩
          intro r' hr' t' ht'
          rcases List.mem_cons.mp hr' with rfl | hr'
          · rw [hst] at ht'
            rw [← Option.some_inj.mp ht']
            exact hle
          · exact hmin r' hr' t' ht'
      · rw [if_neg hd] at h
        rcases ih bd acc mt h with ⟨ha, hall⟩ | ⟨r₂, hr₂, t₂, ht₂, hmt, hle, hmin⟩
        · refine Or.inl ⟨ha, ?_⟩
          intro r' hr' t' ht'
          rcases List.mem_cons.mp hr' with rfl | hr'
          · rw [hst] at ht'
            rw [← Option.some_inj.mp ht']
            exact lt_of_not_le hd
          · exact hall r' hr' t' ht'
        · refine Or.inr ⟨r₂, List.mem_cons_of_mem _ hr₂, t₂, ht₂, hmt, hle, ?_⟩
          intro r' hr' t' ht'
          rcases List.mem_cons.mp hr' with rfl | hr'
          · rw [hst] at ht'
            rw [← Option.some_inj.mp ht']
            exact le_trans hle (le_of_lt (lt_of_not_le hd))
          · exact hmin r' hr' t' ht'

theorem findBestRace_acc_some (mv : String) (t0 : ℤ) :
    ∀ (races : List SBRace) (bd : ℤ) (m : SBMatch),
    findBestRace mv t0 races bd (some m) ≠ none := by
  intro races
  induction races with
  | nil =>
    intro bd m h
    simp only [findBestRace] at h
    exact Option.noConfusion h
  | cons r rs ih =>
    intro bd m h
    cases hst : r.startTime with
    | none =>
      simp only [findBestRace, hst] at h
      exact ih bd m h
    | some t =>
      simp only [findBestRace, hst] at h
      by_cases hd : |t - t0| ≤ bd
      · rw [if_pos hd] at h; exact ih _ _ h
      · rw [if_neg hd] at h; exact ih bd m h

theorem findBestRace_none (mv : String) (t0 : ℤ) :
    ∀ (races : List SBRace) (bd : ℤ),
    findBestRace mv t0 races bd none = none ↔
      ∀ r ∈ races, ∀ t : ℤ, r.startTime = some t → ¬(|t - t0| ≤ bd) := by
  intro races
  induction races with
  | nil =>
    intro bd
    simp only [findBestRace, true_iff]
    intro r hr
    exact absurd hr (List.not_mem_nil r)
  | cons r rs ih =>
    intro bd
    cases hst : r.startTime with
    | none =>
      simp only [findBestRace, hst]
      rw [ih bd]
      constructor
      · intro hall r' hr' t' ht'
        rcases List.mem_cons.mp hr' with rfl | hr'
        · rw [hst] at ht'; exact absurd ht' (by simp)
        · exact hall r' hr' t' ht'
      · intro hall r' hr' t' ht'
        exact hall r' (List.mem_cons_of_mem _ hr') t' ht'
    | some t =>
      simp only [findBestRace, hst]
      by_cases hd : |t - t0| ≤ bd
      · rw [if_pos hd]
        constructor
        · intro h
          exact absurd h (findBestRace_acc_some mv t0 rs _ _)
        · intro hall
          exact absurd hd (hall r (List.mem_cons_self r rs) t hst)
      · rw [if_neg hd, ih bd]
        constructor
        · intro hall r' hr' t' ht'
          rcases List.mem_cons.mp hr' with rfl | hr'
          · rw [hst] at ht'
            rw [← Option.some_inj.mp ht']
            exact hd
          · exact hall r' hr' t' ht'
        · intro hall r' hr' t' ht'
          exact hall r' (List.mem_cons_of_mem _ hr') t' ht'

/-- C4: find_race returns a race only when the lower-cased,
space-removed query venue and candidate venue contain one another and
that meeting has a race within 300 seconds of the query start time (the
closest such race is chosen); it returns none exactly when no
qualifying meeting has a race within tolerance. -/
theorem find_race_spec (venue : String) (rn : Nat) (t0 : ℤ)
    (meetings : List SBMeeting) :
    (∀ mt, find_race venue rn t0 meetings = some mt →
      ∃ m ∈ meetings, venueOk venue m = true ∧ mt.venue = m.venue ∧
        ∃ r ∈ m.races, ∃ t : ℤ, r.startTime = some t ∧
          mt = ⟨r.eventId, m.venue, r.raceNumber, r.raceName, t⟩ ∧
          |t - t0| ≤ 300 ∧
          ∀ r' ∈ m.races, ∀ t' : ℤ, r'.startTime = some t' →
            |t - t0| ≤ |t' - t0|) ∧
    (find_race venue rn t0 meetings = none ↔
      ∀ m ∈ meetings, venueOk venue m = true →
        ∀ r ∈ m.races, ∀ t : ℤ, r.startTime = some t →
          ¬(|t - t0| ≤ 300)) := by
  induction meetings with
  | nil =>
    constructor
    · intro mt h
      simp only [find_race] at h
      exact Option.noConfusion h
    · simp only [find_race, true_iff]
      intro m hm
      exact absurd hm (List.not_mem_nil m)
  | cons m ms ih =>
    constructor
    · intro mt h
      simp only [find_race] at h
      by_cases hv : venueOk venue m = true
      · rw [if_pos hv] at h
        rcases hbr : findBestRace m.venue t0 m.races 300 none with _ | bm
        · simp only [hbr] at h
          obtain ⟨m₂, hm₂, rest⟩ := ih.1 mt h
          exact ⟨m₂, List.mem_cons_of_mem _ hm₂, rest⟩
        · simp only [hbr] at h
          rcases findBestRace_some m.venue t0 m.races 300 none bm hbr with
            ⟨ha, _⟩ | ⟨r₂, hr₂, t₂, ht₂, hmt, hle, hmin⟩
          · exact absurd ha (by simp)
          · obtain rfl : bm = mt := Option.some_inj.mp h
            exact ⟨m, List.mem_cons_self m ms, hv, by rw [hmt], r₂, hr₂, t₂,
              ht₂, hmt, hle, hmin⟩
      · rw [if_neg hv] at h
        obtain ⟨m₂, hm₂, rest⟩ := ih.1 mt h
        exact ⟨m₂, List.mem_cons_of_mem _ hm₂, rest⟩
    · simp only [find_race]
      by_cases hv : venueOk venue m = true
      · rw [if_pos hv]
        rcases hbr : findBestRace m.venue t0 m.races 300 none with _ | bm
        · show find_race venue rn t0 ms = none ↔ _
          rw [ih.2]
          have hhead := (findBestRace_none m.venue t0 m.races 300).mp hbr
          constructor
          · intro hms m' hm' hv' r' hr' t' ht'
            rcases List.mem_cons.mp hm' with rfl | hm'
            · exact hhead r' hr' t' ht'
            · exact hms m' hm' hv' r' hr' t' ht'
          · intro hall m' hm' hv' r' hr' t' ht'
            exact hall m' (List.mem_cons_of_mem _ hm') hv' r' hr' t' ht'
        · refine iff_of_false (by simp) ?_
          intro hall
          rcases findBestRace_some m.venue t0 m.races 300 none bm hbr with
            ⟨ha, _⟩ | ⟨r₂, hr₂, t₂, ht₂, _, hle, _⟩
          · exact absurd ha (by simp)
          · exact hall m (List.mem_cons_self m ms) hv r₂ hr₂ t₂ ht₂ hle
      · rw [if_neg hv, ih.2]
        constructor
        · intro hms m' hm' hv' r' hr' t' ht'
          rcases List.mem_cons.mp hm' with rfl | hm'
          · exact absurd hv' hv
          · exact hms m' hm' hv' r' hr' t' ht'
        · intro hall m' hm' hv' r' hr' t' ht'
          exact hall m' (List.mem_cons_of_mem _ hm') hv' r' hr' t' ht'

/-- Witness for C4: query venue Sandown against a Sandown Park meeting
matches at 120 seconds difference, and returns none at 400 seconds. -/
theorem find_race_spec_witness :
    find_race "Sandown" 5 0
      [⟨"Sandown Park", [⟨11, 5, "Race 5", some 120⟩]⟩]
      = some ⟨11, "Sandown Park", 5, "Race 5", 120⟩ ∧
    find_race "Sandown" 5 0
      [⟨"Sandown Park", [⟨11, 5, "Race 5", some 400⟩]⟩] = none := by
  constructor
  · have h := (find_race_spec "Sandown" 5 0
      [⟨"Sandown Park", [⟨11, 5, "Race 5", some 120⟩]⟩]).2
    decide
  · refine (find_race_spec "Sandown" 5 0
      [⟨"Sandown Park", [⟨11, 5, "Race 5", some 400⟩]⟩]).2.mpr ?_
    intro m hm hv r hr t ht
    have hm' : m = ⟨"Sandown Park", [⟨11, 5, "Race 5", some 400⟩]⟩ := by
      simpa using hm
    subst hm'
    have hr' : r = ⟨11, 5, "Race 5", some 400⟩ := by simpa using hr
    subst hr'
    have ht' : t = 400 := by simpa using ht.symm
    subst ht'
    decide

theorem mem_insertRunner (x y : CompositeRunner) :
    ∀ l : List CompositeRunner, y ∈ insertRunner x l ↔ y = x ∨ y ∈ l := by
  intro l
  induction l with
  | nil => simp [insertRunner]
  | cons z zs ih =>
    simp only [insertRunner]
    by_cases h : x.horseNumber ≤ z.horseNumber
    · rw [if_pos h]
      simp [List.mem_cons]
    · rw [if_neg h]
      simp only [List.mem_cons, ih]
      tauto

theorem mem_sortRunners (y : CompositeRunner) :
    ∀ l : List CompositeRunner, y ∈ sortRunners l ↔ y ∈ l := by
  intro l
  induction l with
  | nil => simp [sortRunners]
  | cons z zs ih =>
    simp only [sortRunners, mem_insertRunner, ih, List.mem_cons]

theorem pairwise_insertRunner (x : CompositeRunner) :
    ∀ l : List CompositeRunner,
    l.Pairwise (fun a b => a.horseNumber ≤ b.horseNumber) →
    (insertRunner x l).Pairwise (fun a b => a.horseNumber ≤ b.horseNumber) := by
  intro l
  induction l with
  | nil =>
    intro _
    simp [insertRunner]
  | cons z zs ih =>
    intro h
    simp only [insertRunner]
    by_cases hle : x.horseNumber ≤ z.horseNumber
    · rw [if_pos hle]
      refine List.Pairwise.cons ?_ h
      intro b hb
      rcases List.mem_cons.mp hb with rfl | hb
      · exact hle
      · exact le_trans hle ((List.pairwise_cons.mp h).1 b hb)
    · rw [if_neg hle]
      refine List.Pairwise.cons ?_ (ih (List.pairwise_cons.mp h).2)
      intro b hb
      rcases (mem_insertRunner x b zs).mp hb with rfl | hb
      · exact le_of_not_le hle
      · exact (List.pairwise_cons.mp h).1 b hb

theorem pairwise_sortRunners :
    ∀ l : List CompositeRunner,
    (sortRunners l).Pairwise (fun a b => a.horseNumber ≤ b.horseNumber) := by
  intro l
  induction l with
  | nil => simp [sortRunners]
  | cons z zs ih => exact pairwise_insertRunner z (sortRunners zs) ih

/-- Distinct keys identify entries of an association list. -/
theorem keys_nodup_eq {α : Type} :
    ∀ (l : List (Nat × α)), (l.map Prod.fst).Nodup →
    ∀ p ∈ l, ∀ q ∈ l, p.1 = q.1 → p = q := by
  intro l
  induction l with
  | nil =>
    intro _ p hp
    exact absurd hp (List.not_mem_nil p)
  | cons r rs ih =>
    intro hnd p hp q hq hpq
    rw [List.map_cons, List.nodup_cons] at hnd
    rcases List.mem_cons.mp hp with hp1 | hp2
    · rcases List.mem_cons.mp hq with hq1 | hq2
      · rw [hp1, hq1]
      · exfalso
        apply hnd.1
        rw [hp1] at hpq
        rw [hpq]
        exact List.mem_map_of_mem Prod.fst hq2
    · rcases List.mem_cons.mp hq with hq1 | hq2
      · exfalso
        apply hnd.1
        rw [hq1] at hpq
        rw [← hpq]
        exact List.mem_map_of_mem Prod.fst hp2
      · exact ih hnd.2 p hp2 q hq2 hpq

/-- C6: the combined runner list is ordered ascending by horse number,
every member originates from a non-removed reference runner, and when
the reference runner map has distinct horse numbers (as a Python dict
does), a runner whose reference status is REMOVED is absent from the
output no matter what any bookmaker quotes. -/
theorem combine_runner_data_spec (betfair_runners : List (Nat × BFRunner))
    (sb am pb bt bb pm tb pu : List (Nat × BKRunner))
    (promo lay_mode : String) (commission : ℚ) :
    (combine_runner_data betfair_runners sb am pb bt bb pm tb pu
        promo lay_mode commission).Pairwise
      (fun a b => a.horseNumber ≤ b.horseNumber) ∧
    (∀ cr ∈ combine_runner_data betfair_runners sb am pb bt bb pm tb pu
        promo lay_mode commission,
      ∃ p ∈ betfair_runners, p.1 = cr.horseNumber ∧
        p.2.status ≠ "REMOVED") ∧
    ((betfair_runners.map Prod.fst).Nodup →
      ∀ p ∈ betfair_runners, p.2.status = "REMOVED" →
        ∀ cr ∈ combine_runner_data betfair_runners sb am pb bt bb pm tb pu
            promo lay_mode commission,
          cr.horseNumber ≠ p.1) := by
  refine ⟨pairwise_sortRunners _, ?_, ?_⟩
  · intro cr hcr
    rw [combine_runner_data, mem_sortRunners] at hcr
    obtain ⟨p, hp, hmk⟩ := List.mem_map.mp hcr
    obtain ⟨hpmem, hpst⟩ := List.mem_filter.mp hp
    refine ⟨p, hpmem, ?_, by simpa using hpst⟩
    rw [← hmk]
    rfl
  · intro hnd p hp hrem cr hcr hnum
    rw [combine_runner_data, mem_sortRunners] at hcr
    obtain ⟨q, hq, hmk⟩ := List.mem_map.mp hcr
    obtain ⟨hqmem, hqst⟩ := List.mem_filter.mp hq
    have hq1 : q.1 = cr.horseNumber := by rw [← hmk]; rfl
    have : q = p := keys_nodup_eq betfair_runners hnd q hqmem p hp (by
      rw [hq1, hnum])
    rw [this] at hqst
    simp [hrem] at hqst

/-- Witness for C6: with reference runners 2 (removed) and 1 (active),
and a bookmaker still quoting the removed runner, no output runner
carries horse number 2. -/
theorem combine_runner_data_spec_witness :
    ∀ cr ∈ combine_runner_data
        [(2, ⟨"Gone", "REMOVED", some 3, some 100, some (3/2)⟩),
         (1, ⟨"Here", "ACTIVE", some 2, some 100, some (5/4)⟩)]
        [(2, ⟨some 4, false⟩), (1, ⟨some 2, false⟩)] [] [] [] [] [] [] []
        "2/3" "lay" (2/25),
      cr.horseNumber ≠ 2 :=
  (combine_runner_data_spec
      [(2, ⟨"Gone", "REMOVED", some 3, some 100, some (3/2)⟩),
       (1, ⟨"Here", "ACTIVE", some 2, some 100, some (5/4)⟩)]
      [(2, ⟨some 4, false⟩), (1, ⟨some 2, false⟩)] [] [] [] [] [] [] []
      "2/3" "lay" (2/25)).2.2 (by decide)
    (2, ⟨"Gone", "REMOVED", some 3, some 100, some (3/2)⟩)
    (List.mem_cons_self _ _) rfl

/-- C3: get_next_race examines candidates in the order fetched, returns
the snapshot of the first candidate with bookmaker coverage (all
earlier candidates having none, and never revisited), and returns none
exactly when no candidate has coverage. -/
theorem get_next_race_spec (intl : Bool) (promo lay_mode : String)
    (cands : List Candidate) :
    (get_next_race intl promo lay_mode cands = none ↔
      ∀ c ∈ cands, hasBookieOdds c = false) ∧
    (∀ s, get_next_race intl promo lay_mode cands = some s →
      ∃ pre c post, cands = pre ++ c :: post ∧ hasBookieOdds c = true ∧
        (∀ c' ∈ pre, hasBookieOdds c' = false) ∧
        s = mkSnapshot intl promo lay_mode c) := by
  induction cands with
  | nil =>
    constructor
    · simp only [get_next_race, true_iff]
      intro c hc
      exact absurd hc (List.not_mem_nil c)
    · intro s h
      simp only [get_next_race] at h
      exact Option.noConfusion h
  | cons c cs ih =>
    constructor
    · simp only [get_next_race]
      by_cases hc : hasBookieOdds c = true
      · rw [if_pos hc]
        refine iff_of_false (by simp) ?_
        intro hall
        rw [hall c (List.mem_cons_self c cs)] at hc
        exact Bool.noConfusion hc
      · rw [if_neg hc, ih.1]
        constructor
        · intro hall c' hc'
          rcases List.mem_cons.mp hc' with rfl | hc'
          · exact Bool.not_eq_true _ ▸ hc
          · exact hall c' hc'
        · intro hall c' hc'
          exact hall c' (List.mem_cons_of_mem _ hc')
    · intro s h
      simp only [get_next_race] at h
      by_cases hc : hasBookieOdds c = true
      · rw [if_pos hc] at h
        refine ⟨[], c, cs, by simp, hc, ?_, (Option.some_inj.mp h).symm⟩
        intro c' hc'
        exact absurd hc' (List.not_mem_nil c')
      · rw [if_neg hc] at h
        obtain ⟨pre, c₂, post, hsplit, hcov, hpre, hs⟩ := ih.2 s h
        refine ⟨c :: pre, c₂, post, by rw [hsplit, List.cons_append], hcov,
          ?_, hs⟩
        intro c' hc'
        rcases List.mem_cons.mp hc' with rfl | hc'
        · exact Bool.not_eq_true _ ▸ hc
        · exact hpre c' hc'

/-- Witness for C3: with three candidates of which only the second has
bookmaker coverage, get_next_race returns the snapshot of the second,
and with only uncovered candidates it returns none. -/
theorem get_next_race_spec_witness :
    get_next_race false "2/3" "lay"
      [demoCandidateNoOdds "A", demoCandidateWithOdds,
        demoCandidateNoOdds "C"]
      = some (mkSnapshot false "2/3" "lay" demoCandidateWithOdds) ∧
    get_next_race false "2/3" "lay"
      [demoCandidateNoOdds "A", demoCandidateNoOdds "C"] = none := by
  constructor
  · rfl
  · refine (get_next_race_spec false "2/3" "lay"
      [demoCandidateNoOdds "A", demoCandidateNoOdds "C"]).1.mpr ?_
    intro c hc
    rcases List.mem_cons.mp hc with rfl | hc
    · rfl
    · have hc' : c = demoCandidateNoOdds "C" := by simpa using hc
      rw [hc']
      rfl

theorem findSettle_none_iff (fh : Bool) (pos : ℤ) (venue : String)
    (rn : Nat) (d : String) :
    ∀ sheet : List Row, findSettle fh pos venue rn d sheet = none ↔
      ∀ r ∈ sheet, ¬(r.date = d ∧ r.venue = venue ∧ r.race = rn) := by
  intro sheet
  induction sheet with
  | nil =>
    simp only [findSettle, true_iff]
    intro r hr
    exact absurd hr (List.not_mem_nil r)
  | cons r rs ih =>
    simp only [findSettle]
    by_cases hm : r.date = d ∧ r.venue = venue ∧ r.race = rn
    · rw [if_pos hm]
      refine iff_of_false (by simp) ?_
      intro hall
      exact hall r (List.mem_cons_self r rs) hm
    · rw [if_neg hm]
      rcases hfs : findSettle fh pos venue rn d rs with _ | rs2
      · refine iff_of_true rfl ?_
        intro r' hr'
        rcases List.mem_cons.mp hr' with rfl | hr'
        · exact hm
        · exact (ih.mp hfs) r' hr'
      · refine iff_of_false (by simp) ?_
        intro hall
        have : findSettle fh pos venue rn d rs = none := by
          refine ih.mpr ?_
          intro r' hr'
          exact hall r' (List.mem_cons_of_mem _ hr')
        rw [this] at hfs
        exact Option.noConfusion hfs

/-- C10 amended: update_results returns false exactly when no row of
the sheet matches the given date, venue and race number; the search
does not require the matching row to be unsettled. -/
theorem update_results_false_iff_no_match (name venue : String)
    (rn : Nat) (d : String) (pos : ℤ) (sheet : List Row) :
    (update_results name venue rn d pos sheet).2 = false ↔
      ∀ r ∈ sheet, ¬(r.date = d ∧ r.venue = venue ∧ r.race = rn) := by
  simp only [update_results]
  rcases hfs : findSettle (containsSeg "FreeHit".toList name.toList)
      pos venue rn d sheet with _ | sheet2
  · exact iff_of_true rfl
      ((findSettle_none_iff _ pos venue rn d sheet).mp hfs)
  · refine iff_of_false (by simp) ?_
    intro hall
    have : findSettle (containsSeg "FreeHit".toList name.toList)
        pos venue rn d sheet = none :=
      (findSettle_none_iff _ pos venue rn d sheet).mpr hall
    rw [this] at hfs
    exact Option.noConfusion hfs

/-- Counterexample to C10 as stated: a sheet whose only matching row is
already settled contains no unsettled matching row, yet update_results
returns true (and re-settles the row). -/
theorem update_results_settled_row_counterexample :
    demoSettledRow.result ≠ none ∧
    (update_results "2/3-1min" "Flemington" 1 "2025-01-01" 2
      [demoSettledRow]).2 = true := by
  constructor
  · intro h
    exact Option.noConfusion h
  · decide

/-- Witness for the amended C10 at a concrete sheet with no matching
row. -/
theorem update_results_false_iff_no_match_witness :
    (update_results "2/3-1min" "Caulfield" 2 "2025-01-01" 1
      [demoSettledRow]).2 = false :=
  (update_results_false_iff_no_match "2/3-1min" "Caulfield" 2
    "2025-01-01" 1 [demoSettledRow]).mpr (by
      intro r hr hcon
      have hr' : r = demoSettledRow := by simpa using hr
      rw [hr'] at hcon
      exact absurd hcon.2.1 (by decide))

theorem roundHalfEven_intCast (z : ℤ) : roundHalfEven (z : ℚ) = z := by
  rw [roundHalfEven, Int.floor_intCast]
  rw [if_pos (by norm_num)]

theorem round2_of_mul_int (q : ℚ) (z : ℤ) (h : q * 100 = (z : ℚ)) :
    round2 q = (z : ℚ) / 100 := by
  rw [round2, h, roundHalfEven_intCast]

/-- Counterexample to C2 as stated: settling a 2nd place with B = 3 and
L = 2.5 writes full-lay P/L 0.8, computed from the fixed default
commission 0.08, while the claimed formula with the jurisdiction rate
of New South Wales (0.10) yields 0.78. -/
theorem update_results_jurisdiction_counterexample :
    ((update_results "2/3-1min" "Randwick" 1 "2025-01-01" 2
        [demoNSWRow]).1.head?.map Row.plFullLay) = some (some (4/5)) ∧
    BETFAIR_COMMISSION "NSW" = 1/10 ∧
    ((3 : ℚ) / (5/2) * (1 - BETFAIR_COMMISSION "NSW") - 1
        + RETENTION_FACTOR) = 39/50 ∧
    ((4 : ℚ)/5) ≠ 39/50 := by
  have hfh : containsSeg "FreeHit".toList "2/3-1min".toList = false := by
    decide
  have hfs : findSettle false 2 "Randwick" 1 "2025-01-01" [demoNSWRow]
      = some [settleRow false 2 demoNSWRow] := by
    simp [findSettle, demoNSWRow]
  have hur : (update_results "2/3-1min" "Randwick" 1 "2025-01-01" 2
      [demoNSWRow]).1
      = update_cumulative_totals [settleRow false 2 demoNSWRow] := by
    simp only [update_results, hfh, hfs]
  have hsome : (settleRow false 2 demoNSWRow).plNoLay.isSome = true := rfl
  have hcum : (update_cumulative_totals
        [settleRow false 2 demoNSWRow]).head?.map Row.plFullLay
      = some ((settleRow false 2 demoNSWRow).plFullLay) := by
    simp [update_cumulative_totals, cumGo, hsome]
  have hpl : (settleRow false 2 demoNSWRow).plFullLay
      = some (round2 ((3 : ℚ)/(5/2) * (1 - 2/25) - 1 + RETENTION_FACTOR)) := by
    have h2 : (plValues false 2 3 (5/2) (2/25)).2.2
        = (3 : ℚ)/(5/2) * (1 - 2/25) - 1 + RETENTION_FACTOR := by
      have hpos : ((5 : ℚ)/2) > 0 := by norm_num
      simp [plValues, hpos]
    simp only [settleRow, demoNSWRow, Option.getD_some]
    rw [h2]
  have hval : ((3 : ℚ)/(5/2) * (1 - 2/25) - 1 + RETENTION_FACTOR)
      = 201/250 := by norm_num [RETENTION_FACTOR]
  have hround : round2 (201/250 : ℚ) = 4/5 := by
    rw [round2]
    have h1 : (201/250 : ℚ) * 100 = 402/5 := by norm_num
    have h2 : roundHalfEven (402/5 : ℚ) = 80 := by
      rw [roundHalfEven]
      have hf : ⌊(402/5 : ℚ)⌋ = 80 := by norm_num [Int.floor_eq_iff]
      rw [hf, if_pos (by norm_num)]
    rw [h1, h2]
    norm_num
  refine ⟨?_, ?_, ?_, by norm_num⟩
  · rw [hur, hcum, hpl, hval, hround]
  · norm_num [BETFAIR_COMMISSION]
  · norm_num [BETFAIR_COMMISSION, RETENTION_FACTOR]

/-- C2 amended: settling a non-void position writes exactly the P/L
table of the spec with the fixed default commission 0.08 (rounded to
two decimals in the cells), regardless of the jurisdiction of the row:
1st gives (B-1, (B-1)/2+(B/L-1)/2, B/L-1); 2nd/3rd on the 2/3 promo,
or any non-win on the free-hit promo, gives
(q-1, (q-1)/2+(layProfit-1)/2, layProfit-1+q) with
layProfit = (B/L)(1-0.08); any other position on the 2/3 promo gives
(-1, -0.5+(layProfit-1)/2, layProfit-1). -/
theorem settlement_pl_formulas (fh : Bool) (pos : ℤ) (B L : ℚ)
    (hL : 0 < L) :
    (pos = 1 → plValues fh pos B L (2/25) =
      (B - 1, (B - 1)/2 + (B/L - 1)/2, B/L - 1)) ∧
    ((if fh = true then pos ≠ 1 else (pos = 2 ∨ pos = 3)) →
      plValues fh pos B L (2/25) =
        (RETENTION_FACTOR - 1,
         (RETENTION_FACTOR - 1)/2 + (B/L * (1 - 2/25) - 1)/2,
         B/L * (1 - 2/25) - 1 + RETENTION_FACTOR)) ∧
    (fh = false → ¬(pos = 1) → ¬(pos = 2 ∨ pos = 3) →
      plValues fh pos B L (2/25) =
        (-1, -(1/2) + (B/L * (1 - 2/25) - 1)/2, B/L * (1 - 2/25) - 1)) ∧
    (∀ r : Row, r.back = some B → r.lay = some L →
      settleRow fh pos r =
        { r with result := some (resultLabel pos)
                 plNoLay := some (round2 (plValues fh pos B L (2/25)).1)
                 plHalfLay := some (round2 (plValues fh pos B L (2/25)).2.1)
                 plFullLay := some (round2 (plValues fh pos B L (2/25)).2.2) }) := by
  refine ⟨?_, ?_, ?_, ?_⟩
  · intro h1
    subst h1
    cases fh <;> simp [plValues, hL]
  · intro h2
    cases fh
    · simp only [Bool.false_eq_true, if_false] at h2
      rcases h2 with h2 | h2 <;> subst h2 <;> simp [plValues, hL]
    · simp only [if_true] at h2
      simp [plValues, hL, h2]
  · intro hfh h1 h23
    subst hfh
    simp [plValues, hL, h1, h23]
  · intro r hb hl
    simp only [settleRow, hb, hl, Option.getD_some]

/-- Witness for the amended C2: the spec example with B = 3, L = 2.5 at
position 1 yields (2, 1.1, 0.2). -/
theorem settlement_pl_formulas_witness :
    plValues false 1 3 (5/2) (2/25) = (2, 11/10, 1/5) ∧
    round2 (2 : ℚ) = 2 ∧ round2 ((11 : ℚ)/10) = 11/10 ∧
    round2 ((1 : ℚ)/5) = 1/5 := by
  refine ⟨?_,
    (round2_of_mul_int 2 200 (by norm_num)).trans (by norm_num),
    (round2_of_mul_int (11/10) 110 (by norm_num)).trans (by norm_num),
    (round2_of_mul_int (1/5) 20 (by norm_num)).trans (by norm_num)⟩
  refine ((settlement_pl_formulas false 1 3 (5/2) (by norm_num)).1
    rfl).trans ?_
  norm_num [Prod.ext_iff]

/-- C9: a void or scratched result never reaches settlement: when the
tracked horse's position is -1 the results loop skips the race without
writing anything, the Sportsbet result code V maps to -1, and the
manual command offers no void position. -/
theorem void_position_skips_settlement (sheet : List Row)
    (sheetName venue dateStr : String) (raceNum horseNum : Nat)
    (results : List (Nat × ℤ))
    (hvoid : alookup results horseNum = some (-1)) :
    process_pending_result sheet sheetName venue raceNum dateStr
      horseNum results = (sheet, false) ∧
    positionOfResultCode 'V' = -1 ∧
    (-1 : ℤ) ∉ manualPositionChoices := by
  refine ⟨?_, by decide, by decide⟩
  simp [process_pending_result, hvoid]

/-- Witness for C9 at a concrete sheet and results map. -/
theorem void_position_skips_settlement_witness :
    process_pending_result [demoNSWRow] "2/3-1min" "Randwick" 1
      "2025-01-01" 1 [(1, -1)] = ([demoNSWRow], false) :=
  (void_position_skips_settlement [demoNSWRow] "2/3-1min" "Randwick"
    "2025-01-01" 1 1 [(1, -1)] (by decide)).1

theorem cumGo_getElem :
    ∀ (rows : List Row) (cn ch cf : ℚ) (n : ℕ) (r : Row),
    (cumGo cn ch cf rows)[n]? = some r → r.plNoLay.isSome = true →
    r.cumNoLay = some (round2 (cn + sumPlNoLay (rows.take (n+1)))) ∧
    r.cumHalfLay = some (round2 (ch + sumPlHalf (rows.take (n+1)))) ∧
    r.cumFullLay = some (round2 (cf + sumPlFull (rows.take (n+1)))) := by
  intro rows
  induction rows with
  | nil =>
    intro cn ch cf n r h _
    rw [cumGo] at h
    simp at h
  | cons r0 rs ih =>
    intro cn ch cf n r h hsome
    cases h0 : r0.plNoLay.isSome with
    | false =>
      simp only [cumGo, h0, Bool.false_eq_true, if_false] at h
      cases n with
      | zero =>
        rw [List.getElem?_cons_zero] at h
        obtain rfl := Option.some_inj.mp h
        rw [h0] at hsome
        exact absurd hsome (by simp)
      | succ m =>
        rw [List.getElem?_cons_succ] at h
        have hih := ih cn ch cf m r h hsome
        refine ⟨?_, ?_, ?_⟩
        · rw [hih.1]
          simp [List.take_succ_cons, sumPlNoLay, h0]
        · rw [hih.2.1]
          simp [List.take_succ_cons, sumPlHalf, h0]
        · rw [hih.2.2]
          simp [List.take_succ_cons, sumPlFull, h0]
    | true =>
      simp only [cumGo, h0, if_true] at h
      cases n with
      | zero =>
        rw [List.getElem?_cons_zero] at h
        obtain rfl := Option.some_inj.mp h
        refine ⟨?_, ?_, ?_⟩
        · simp [List.take_succ_cons, sumPlNoLay, h0]
        · simp [List.take_succ_cons, sumPlHalf, h0]
        · simp [List.take_succ_cons, sumPlFull, h0]
      | succ m =>
        rw [List.getElem?_cons_succ] at h
        have hih := ih (cn + r0.plNoLay.getD 0) (ch + r0.plHalfLay.getD 0)
          (cf + r0.plFullLay.getD 0) m r h hsome
        refine ⟨?_, ?_, ?_⟩
        · rw [hih.1]
          simp [List.take_succ_cons, sumPlNoLay, h0, add_assoc]
        · rw [hih.2.1]
          simp [List.take_succ_cons, sumPlHalf, h0, add_assoc]
        · rw [hih.2.2]
          simp [List.take_succ_cons, sumPlFull, h0, add_assoc]

theorem cumGo_idem :
    ∀ (rows : List Row) (cn ch cf : ℚ),
    cumGo cn ch cf (cumGo cn ch cf rows) = cumGo cn ch cf rows := by
  intro rows
  induction rows with
  | nil => intro cn ch cf; rfl
  | cons r0 rs ih =>
    intro cn ch cf
    cases h0 : r0.plNoLay.isSome with
    | false => simp [cumGo, h0, ih]
    | true => simp [cumGo, h0, ih]

theorem sum_pl100 :
    ∀ rows : List Row, (∀ r ∈ rows, pl100 r) →
    (∃ z : ℤ, sumPlNoLay rows = z / 100) ∧
    (∃ z : ℤ, sumPlHalf rows = z / 100) ∧
    (∃ z : ℤ, sumPlFull rows = z / 100) := by
  intro rows
  induction rows with
  | nil =>
    intro _
    exact ⟨⟨0, by norm_num [sumPlNoLay]⟩, ⟨0, by norm_num [sumPlHalf]⟩,
      ⟨0, by norm_num [sumPlFull]⟩⟩
  | cons r0 rs ih =>
    intro hall
    have hr0 : pl100 r0 := hall r0 (List.mem_cons_self r0 rs)
    have hrs := ih (fun r hr => hall r (List.mem_cons_of_mem _ hr))
    obtain ⟨⟨z1, hz1⟩, ⟨z2, hz2⟩, ⟨z3, hz3⟩⟩ := hrs
    have head100 : ∀ (sel : Row → Option ℚ),
        (∀ q : ℚ, sel r0 = some q → ∃ z : ℤ, q = z / 100) →
        ∃ z : ℤ, (if r0.plNoLay.isSome then (sel r0).getD 0 else 0)
          = (z : ℚ) / 100 := by
      intro sel hsel
      cases h0 : r0.plNoLay.isSome with
      | false => exact ⟨0, by simp [h0]⟩
      | true =>
        cases hv : sel r0 with
        | none => exact ⟨0, by simp [h0, hv]⟩
        | some q =>
          obtain ⟨z, hz⟩ := hsel q hv
          exact ⟨z, by simp [h0, hv, hz]⟩
    refine ⟨?_, ?_, ?_⟩
    · obtain ⟨w, hw⟩ := head100 Row.plNoLay hr0.1
      refine ⟨w + z1, ?_⟩
      rw [sumPlNoLay, hw, hz1]
      push_cast
      ring
    · obtain ⟨w, hw⟩ := head100 Row.plHalfLay hr0.2.1
      refine ⟨w + z2, ?_⟩
      rw [sumPlHalf, hw, hz2]
      push_cast
      ring
    · obtain ⟨w, hw⟩ := head100 Row.plFullLay hr0.2.2
      refine ⟨w + z3, ?_⟩
      rw [sumPlFull, hw, hz3]
      push_cast
      ring

theorem round2_div100 (z : ℤ) : round2 ((z : ℚ) / 100) = (z : ℚ) / 100 :=
  round2_of_mul_int _ z (by
    rw [div_mul_cancel₀]
    norm_num)

/-- C8: the cumulative recomputation is a full rescan: it is idempotent
on any sheet; it writes, into each settled row, the rounded running sum
over the settled rows at or above it; and on a sheet whose P/L cells
are two-decimal values - as every tracker-written cell is - the
cumulative cells are exactly the running sums, so one rescan after any
settlement makes all downstream cells consistent. -/
theorem update_cumulative_totals_spec :
    (∀ sheet : List Row,
      update_cumulative_totals (update_cumulative_totals sheet)
        = update_cumulative_totals sheet) ∧
    (∀ (sheet : List Row) (n : ℕ) (r : Row),
      (update_cumulative_totals sheet)[n]? = some r →
      r.plNoLay.isSome = true →
      r.cumNoLay = some (round2 (sumPlNoLay (sheet.take (n+1)))) ∧
      r.cumHalfLay = some (round2 (sumPlHalf (sheet.take (n+1)))) ∧
      r.cumFullLay = some (round2 (sumPlFull (sheet.take (n+1))))) ∧
    (∀ sheet : List Row, (∀ r ∈ sheet, pl100 r) →
      ∀ (n : ℕ) (r : Row),
      (update_cumulative_totals sheet)[n]? = some r →
      r.plNoLay.isSome = true →
      r.cumNoLay = some (sumPlNoLay (sheet.take (n+1))) ∧
      r.cumHalfLay = some (sumPlHalf (sheet.take (n+1))) ∧
      r.cumFullLay = some (sumPlFull (sheet.take (n+1)))) := by
  have hpart2 : ∀ (sheet : List Row) (n : ℕ) (r : Row),
      (update_cumulative_totals sheet)[n]? = some r →
      r.plNoLay.isSome = true →
      r.cumNoLay = some (round2 (sumPlNoLay (sheet.take (n+1)))) ∧
      r.cumHalfLay = some (round2 (sumPlHalf (sheet.take (n+1)))) ∧
      r.cumFullLay = some (round2 (sumPlFull (sheet.take (n+1)))) := by
    intro sheet n r h hsome
    have := cumGo_getElem sheet 0 0 0 n r h hsome
    simpa using this
  refine ⟨fun sheet => cumGo_idem sheet 0 0 0, hpart2, ?_⟩
  intro sheet hall n r h hsome
  have h1 := hpart2 sheet n r h hsome
  have hsub : ∀ r' ∈ sheet.take (n+1), pl100 r' :=
    fun r' hr' => hall r' (List.take_subset _ _ hr')
  obtain ⟨⟨z1, hz1⟩, ⟨z2, hz2⟩, ⟨z3, hz3⟩⟩ := sum_pl100 _ hsub
  refine ⟨?_, ?_, ?_⟩
  · rw [h1.1, hz1, round2_div100]
  · rw [h1.2.1, hz2, round2_div100]
  · rw [h1.2.2, hz3, round2_div100]

/-- Witness for C8: idempotence applied at a concrete sheet whose only
row is settled, and that sheet satisfies the two-decimal invariant. -/
theorem update_cumulative_totals_spec_witness :
    update_cumulative_totals (update_cumulative_totals [demoSettledRow])
      = update_cumulative_totals [demoSettledRow] ∧
    (∀ r ∈ [demoSettledRow], pl100 r) := by
  refine ⟨update_cumulative_totals_spec.1 [demoSettledRow], ?_⟩
  intro r hr
  have hr' : r = demoSettledRow := by simpa using hr
  subst hr'
  refine ⟨?_, ?_, ?_⟩
  · intro q hq
    have : q = 2 := by simpa [demoSettledRow] using hq.symm
    exact ⟨200, by rw [this]; norm_num⟩
  · intro q hq
    have : q = 11/10 := by simpa [demoSettledRow] using hq.symm
    exact ⟨110, by rw [this]; norm_num⟩
  · intro q hq
    have : q = 1/5 := by simpa [demoSettledRow] using hq.symm
    exact ⟨20, by rw [this]; norm_num⟩

theorem alookup_aset_self {κ α : Type} [DecidableEq κ] :
    ∀ (l : List (κ × α)) (k : κ) (v : α), alookup (aset l k v) k = some v := by
  intro l
  induction l with
  | nil => intro k v; simp [aset, alookup]
  | cons p rest ih =>
    intro k v
    obtain ⟨k', v'⟩ := p
    simp only [aset]
    by_cases h : k' = k
    · rw [if_pos h]
      simp [alookup]
    · rw [if_neg h]
      simp only [alookup]
      rw [if_neg h]
      exact ih k v

theorem flagOf_ff : ∀ t : Timing, flagOf t (false, false) = false := by
  intro t
  cases t <;> rfl

theorem flagOf_setFlag : ∀ (t : Timing) (f : Bool × Bool),
    flagOf t (setFlag t f) = true := by
  intro t f
  cases t <;> rfl

/-- C7: when a checkpoint is not yet logged for a race key, a best pick
exists and the target sheet exists, log_opportunity appends exactly one
row to that sheet and marks the checkpoint, and any later call for the
same race and checkpoint returns the state unchanged (so two calls
append exactly one row). -/
theorem log_opportunity_once (st : TrackerState) (race : RaceData)
    (timing : Timing)
    (hnot : flagOf timing ((alookup st.tracked (raceKeyOf race)).getD
      (false, false)) = false)
    (hbest : (find_best_ev race.runners race.promo).isSome = true)
    (hsheet : (alookup st.sheets (sheetNameOf race timing)).isSome = true) :
    ((alookup (log_opportunity st race timing).sheets
        (sheetNameOf race timing)).getD []).length
      = ((alookup st.sheets (sheetNameOf race timing)).getD []).length + 1 ∧
    log_opportunity (log_opportunity st race timing) race timing
      = log_opportunity st race timing := by
  obtain ⟨bp, hbp⟩ := Option.isSome_iff_exists.mp hbest
  obtain ⟨best, evs⟩ := bp
  obtain ⟨rows, hrows⟩ := Option.isSome_iff_exists.mp hsheet
  cases h0 : alookup st.tracked (raceKeyOf race) with
  | none =>
    constructor
    · simp only [log_opportunity, h0, alookup_aset_self, Option.getD_some,
        flagOf_ff, Bool.false_eq_true, if_false, hbp, hrows]
      simp
    · simp only [log_opportunity, h0, alookup_aset_self, Option.getD_some,
        flagOf_ff, Bool.false_eq_true, if_false, hbp, hrows,
        flagOf_setFlag, if_true]
  | some f =>
    rw [h0] at hnot
    simp only [Option.getD_some] at hnot
    constructor
    · simp only [log_opportunity, h0, alookup_aset_self, Option.getD_some,
        hnot, Bool.false_eq_true, if_false, hbp, hrows]
      simp
    · simp only [log_opportunity, h0, alookup_aset_self, Option.getD_some,
        hnot, Bool.false_eq_true, if_false, hbp, hrows,
        flagOf_setFlag, if_true]

/-- Witness for C7 at a fresh state with one eligible pick. -/
theorem log_opportunity_once_witness :
    ((alookup (log_opportunity demoTrackerState demoRaceData
        Timing.oneMin).sheets
        (sheetNameOf demoRaceData Timing.oneMin)).getD []).length
      = ((alookup demoTrackerState.sheets
        (sheetNameOf demoRaceData Timing.oneMin)).getD []).length + 1 ∧
    log_opportunity (log_opportunity demoTrackerState demoRaceData
        Timing.oneMin) demoRaceData Timing.oneMin
      = log_opportunity demoTrackerState demoRaceData Timing.oneMin := by
  have hscan : scanBookies demoRunner (bookieQuotes demoRunner)
      (none, -999) = (some ⟨1, "Demo", "sportsbet", 3, some 2,
        some (3/2)⟩, 12) := by
    simp only [bookieQuotes, demoRunner, scanBookies]
    rw [if_pos (by norm_num : (12 : ℚ) > -999)]
  have hbest : (find_best_ev demoRaceData.runners demoRaceData.promo).isSome
      = true := by
    simp only [find_best_ev, demoRaceData, scanRunners, hscan]
    rfl
  exact log_opportunity_once demoTrackerState demoRaceData Timing.oneMin
    (by rfl) hbest (by rfl)

end TrackMonitor
